import Mathlib

/-!
# Verification of the `rruled` natural-language → RRULE converter

This file shallowly embeds the conversion pipeline of the `rruled`
repository (TypeScript) in Lean 4 and proves/refutes the frozen claims
about it.

The embedding follows the source files:

* `src/parsers.ts`    — `normalizeInput`, `parseTime`, `extractTimes`,
  `parseInterval`, `parseCount`, `parseDuration`, `durationToCount`,
  `parseStartDate`;
* `src/matchers.ts`   — `matchPatterns` and the individual matchers;
* `src/rrule-builder.ts` — `buildRRule`, `normalizeMatches`;
* `src/index.ts`      — `detectConflicts` and the orchestrator `rruled`
  (the variant that converts duration phrases to COUNT and rejects
  COUNT < number-of-times as ambiguous, which the spec adopts).

JavaScript regular expressions are hand-compiled to character-list
scanners that reproduce the leftmost-match search and the backtracking
order of the concrete patterns used by the source (greedy `\d{1,2}`
tries two digits before one, optional groups try the present branch
first, alternations are tried left to right, `/g` scanning resumes at
the end of the previous match).  JavaScript numbers are modelled by
`Nat`/`Int`, and the fractional duration-conversion table by exact
rationals (`ℚ`); the source's IEEE-754 arithmetic agrees with the
rational semantics on all values exercised here.
-/

/-! ## Character utilities -/

/-- JS `\s` restricted to the ASCII whitespace that can reach the matchers. -/
def isWs (c : Char) : Bool :=
  c == ' ' || c == '\t' || c == '\n' || c == '\r'

/-- JS `\d`. -/
def isDigitCh (c : Char) : Bool :=
  48 ≤ c.toNat && c.toNat ≤ 57

/-- Numeric value of a digit character. -/
def digitVal (c : Char) : Nat := c.toNat - 48

/-- JS `\w` (word character), used for `\b` boundary tests. -/
def isWordCh (c : Char) : Bool :=
  (97 ≤ c.toNat && c.toNat ≤ 122) || (65 ≤ c.toNat && c.toNat ≤ 90) ||
    isDigitCh c || c == '_'

/-- ASCII lower-casing, as done by `String.prototype.toLowerCase` on the
inputs of interest. -/
def toLowerCh (c : Char) : Char :=
  if 65 ≤ c.toNat && c.toNat ≤ 90 then Char.ofNat (c.toNat + 32) else c

/-- Remove leading and trailing whitespace (JS `String.prototype.trim`). -/
def trimChars (cs : List Char) : List Char :=
  ((cs.dropWhile isWs).reverse.dropWhile isWs).reverse

/-- If `w` is literally at the head of `cs`, return the rest. -/
def litAt : List Char → List Char → Option (List Char)
  | [], cs => some cs
  | _, [] => none
  | w :: ws, c :: cs => if c = w then litAt ws cs else none

/-- First candidate (in order) on which `f` succeeds: the backtracking
combinator used to model JS regex alternation/greediness. -/
def firstSome {α β : Type} : List α → (α → Option β) → Option β
  | [], _ => none
  | a :: as, f =>
    match f a with
    | some b => some b
    | none => firstSome as f

/-- Candidate parses of greedy `\d{1,2}` at the head of the input, in JS
backtracking order (two digits before one).  Returns the matched digit
slice and the rest. -/
def digitCands : List Char → List (List Char × List Char)
  | [] => []
  | [c1] => if isDigitCh c1 then [([c1], [])] else []
  | c1 :: c2 :: rest =>
    if isDigitCh c1 then
      if isDigitCh c2 then [([c1, c2], rest), ([c1], c2 :: rest)]
      else [([c1], c2 :: rest)]
    else []

/-- Numeric value of a digit slice (JS `parseInt` on the capture). -/
def digitsToNat (ds : List Char) : Nat :=
  ds.foldl (fun a c => a * 10 + digitVal c) 0

/-- Collapse every run of characters satisfying `p` into the single
character `r` (models JS `.replace(/X+/g, "r")`).  The `inRun` flag
records whether the previous character was part of a run. -/
def collapseRunsAux (p : Char → Bool) (r : Char) : Bool → List Char → List Char
  | _, [] => []
  | inRun, c :: cs =>
    if p c then
      if inRun then collapseRunsAux p r true cs
      else r :: collapseRunsAux p r true cs
    else c :: collapseRunsAux p r false cs

/-! ## `normalizeInput` (src/parsers.ts) -/

/-- `normalizeInput` on character lists: lowercase, trim, collapse
whitespace runs to one space, collapse `[,;]+` runs to one comma. -/
def normChars (cs : List Char) : List Char :=
  collapseRunsAux (fun c => c == ',' || c == ';') ',' false
    (collapseRunsAux isWs ' ' false (trimChars (cs.map toLowerCh)))

/-- `normalizeInput(input)`: lowercase, trim, collapse whitespace,
collapse repeated separators. -/
def normalizeInput (s : String) : String := ⟨normChars s.data⟩

/-! ## `parseTime` (src/parsers.ts) -/

/-- A parsed time of day.  `parseTime` only constructs in-range values. -/
structure ParsedTime where
  hour24 : Nat
  minute : Nat
deriving DecidableEq, Repr

inductive Meridiem where
  | am
  | pm
deriving DecidableEq, Repr

/-- Try `am|pm` at the current position (alternation order: `am` first). -/
def meridAt (cs : List Char) : Option (Meridiem × List Char) :=
  match litAt ['a', 'm'] cs with
  | some r => some (.am, r)
  | none =>
    match litAt ['p', 'm'] cs with
    | some r => some (.pm, r)
    | none => none

/-- The characters of a meridiem marker. -/
def meridChars : Meridiem → List Char
  | .am => ['a', 'm']
  | .pm => ['p', 'm']

/-- One attempt of `(\d{1,2})(?::(\d{2}))?\s*(am|pm)` at the current
position, returning (hour digits value, minute value or 0, meridiem). -/
def tryAmPmAt (cs : List Char) : Option (Nat × Nat × Meridiem) :=
  firstSome (digitCands cs) fun hc =>
    let minuteCands : List (Option Nat × List Char) :=
      (match hc.2 with
       | ':' :: d1 :: d2 :: r2 =>
         if isDigitCh d1 && isDigitCh d2 then
           [(some (digitVal d1 * 10 + digitVal d2), r2)]
         else []
       | _ => []) ++ [(none, hc.2)]
    firstSome minuteCands fun mc =>
      match meridAt (mc.2.dropWhile isWs) with
      | some (p, _) => some (digitsToNat hc.1, mc.1.getD 0, p)
      | none => none

/-- Leftmost match of the 12-hour pattern anywhere in the input. -/
def searchAmPm : List Char → Option (Nat × Nat × Meridiem)
  | [] => none
  | c :: cs =>
    match tryAmPmAt (c :: cs) with
    | some r => some r
    | none => searchAmPm cs

/-- One attempt of `(-?\d{1,2}):(\d{2})` at the current position,
returning (signed hour value, minute value). -/
def try24At (cs : List Char) : Option (Int × Nat) :=
  let sr : Bool × List Char :=
    match cs with
    | '-' :: rest => (true, rest)
    | _ => (false, cs)
  firstSome (digitCands sr.2) fun hc =>
    match hc.2 with
    | ':' :: d1 :: d2 :: _ =>
      if isDigitCh d1 && isDigitCh d2 then
        some ((if sr.1 then -(digitsToNat hc.1 : Int) else (digitsToNat hc.1 : Int)),
          digitVal d1 * 10 + digitVal d2)
      else none
    | _ => none

/-- Leftmost match of the 24-hour pattern anywhere in the input. -/
def search24 : List Char → Option (Int × Nat)
  | [] => none
  | c :: cs =>
    match try24At (c :: cs) with
    | some r => some r
    | none => search24 cs

/-- `parseTime` on character lists.  Priority: literal `midnight`,
literal `noon`, 12-hour form with range validation (hour 1–12,
minute 0–59), 24-hour form with range validation (hour 0–23,
minute 0–59; a leading minus sign is matched by the pattern but makes
the hour negative, failing validation). -/
def parseTimeChars (cs0 : List Char) : Option ParsedTime :=
  let cs := trimChars (cs0.map toLowerCh)
  if cs = "midnight".data then some ⟨0, 0⟩
  else if cs = "noon".data then some ⟨12, 0⟩
  else
    match searchAmPm cs with
    | some (h, m, p) =>
      if h < 1 ∨ 12 < h then none
      else if 59 < m then none
      else
        let h24 := if p = .pm ∧ h ≠ 12 then h + 12
          else if p = .am ∧ h = 12 then 0 else h
        some ⟨h24, m⟩
    | none =>
      match search24 cs with
      | some (h, m) =>
        if h < 0 ∨ 23 < h then none
        else if 59 < m then none
        else some ⟨h.toNat, m⟩
      | none => none

/-- `parseTime(timeStr)`: parse a time token, `none` when invalid. -/
def parseTime (s : String) : Option ParsedTime := parseTimeChars s.data

/-! ## `extractTimes` (src/parsers.ts) -/

/-- One attempt of the extraction alternation
`(noon|midnight|-?\d{1,2}(?::\d{2})?\s*(?:am|pm)|-?\d{1,2}:\d{2})` at
the current position, returning (matched token, rest). -/
def timeTokenAt (cs : List Char) : Option (List Char × List Char) :=
  match litAt "noon".data cs with
  | some r => some ("noon".data, r)
  | none =>
  match litAt "midnight".data cs with
  | some r => some ("midnight".data, r)
  | none =>
  let sr : List Char × List Char :=
    match cs with
    | '-' :: rest => (['-'], rest)
    | _ => ([], cs)
  let alt3 :=
    firstSome (digitCands sr.2) fun hc =>
      let minuteCands : List (List Char × List Char) :=
        (match hc.2 with
         | ':' :: d1 :: d2 :: r2 =>
           if isDigitCh d1 && isDigitCh d2 then [([':', d1, d2], r2)] else []
         | _ => []) ++ [([], hc.2)]
      firstSome minuteCands fun mc =>
        match meridAt (mc.2.dropWhile isWs) with
        | some (p, r4) =>
          some (sr.1 ++ hc.1 ++ mc.1 ++ mc.2.takeWhile isWs ++ meridChars p, r4)
        | none => none
  match alt3 with
  | some r => some r
  | none =>
    firstSome (digitCands sr.2) fun hc =>
      match hc.2 with
      | ':' :: d1 :: d2 :: r2 =>
        if isDigitCh d1 && isDigitCh d2 then
          some (sr.1 ++ hc.1 ++ [':', d1, d2], r2)
        else none
      | _ => none

/-- The `/g` scan of `extractTimes`: find each token left to right,
resume after the end of a match, keep only tokens `parseTime`
validates.  The fuel argument (initialised to the input length) only
serves termination; every match consumes at least one character. -/
def extractTimesAux : Nat → List Char → List ParsedTime
  | 0, _ => []
  | _, [] => []
  | fuel + 1, c :: cs =>
    match timeTokenAt (c :: cs) with
    | some (tok, rest) =>
      match parseTimeChars tok with
      | some t => t :: extractTimesAux fuel rest
      | none => extractTimesAux fuel rest
    | none => extractTimesAux fuel cs

/-- `extractTimes(text)`: all validated time tokens, in textual order. -/
def extractTimes (s : String) : List ParsedTime :=
  extractTimesAux s.length s.data

/-! ## Word-boundary scanning (JS `\b`) -/

/-- `\b` after a match: the next character is a non-word character (or end). -/
def boundaryOk : List Char → Bool
  | [] => true
  | c :: _ => !isWordCh c

/-- Scan for a position where `test` fires, with a `\b` before it: the
flag records whether the previous character was a word character. -/
def scanBoundary (test : List Char → Bool) : Bool → List Char → Bool
  | _, [] => false
  | prevW, c :: cs =>
    ((!prevW) && test (c :: cs)) || scanBoundary test (isWordCh c) cs

/-- `w` is literally here followed by a `\b`. -/
def wordHereTest (w : List Char) (cs : List Char) : Bool :=
  match litAt w cs with
  | some rest => boundaryOk rest
  | none => false

/-- `\bw\b` occurs somewhere in `t` (models `new RegExp(`\\bw\\b`).test(t)`). -/
def containsWordP (w : String) (t : List Char) : Bool :=
  scanBoundary (wordHereTest w.data) false t

/-- At least one whitespace character, then skip the whole run (greedy
`\s+` followed by a non-whitespace literal). -/
def ws1T (cs : List Char) : Option (List Char) :=
  match cs with
  | c :: _ => if isWs c then some (cs.dropWhile isWs) else none
  | [] => none

/-- `w1\s+w2\b` is literally here. -/
def adjHereTest (w1 w2 : List Char) (cs : List Char) : Bool :=
  match litAt w1 cs with
  | some r1 =>
    match ws1T r1 with
    | some r2 =>
      match litAt w2 r2 with
      | some r3 => boundaryOk r3
      | none => false
    | none => false
  | none => false

/-- `\bw1\s+w2\b` occurs somewhere in `t`. -/
def adjPhraseP (w1 w2 : String) (t : List Char) : Bool :=
  scanBoundary (adjHereTest w1.data w2.data) false t

/-- From the current position, a `\bday\b` occurrence is ahead with no
`.` in between (the `[^.]*?\bday\b` tail of the second nth-weekday
pass).  The flag records whether the previous character was a word
character. -/
def noDotWordAhead (day : List Char) : Bool → List Char → Bool
  | _, [] => false
  | prevW, c :: cs =>
    if c = '.' then false
    else ((!prevW) && wordHereTest day (c :: cs)) || noDotWordAhead day (isWordCh c) cs

/-- `pos\b[^.]*?\bday\b` is literally here. -/
def gapHereTest (pos day : List Char) (cs : List Char) : Bool :=
  match litAt pos cs with
  | some rest => boundaryOk rest && noDotWordAhead day true rest
  | none => false

/-- `\bpos\b[^.]*?\bday\b` occurs somewhere in `t`. -/
def gapPhraseP (pos day : String) (t : List Char) : Bool :=
  scanBoundary (gapHereTest pos.data day.data) false t

/-- Scan a text left to right for the first position where an optional
matcher succeeds (unanchored regex search without `\b` context). -/
def scanOpt {α : Type} (test : List Char → Option α) : List Char → Option α
  | [] => none
  | c :: cs =>
    match test (c :: cs) with
    | some x => some x
    | none => scanOpt test cs

/-! ## Stable insertion sort

The source sorts with `Array.prototype.sort(comparator)`.  All the
comparators used are (on the values that actually occur) total
preorders induced by an integer key, and the engine's sort is stable,
so a stable insertion sort by the same key is extensionally equal. -/

/-- Insert `x` after every element `y` with `le y x` (stable insert). -/
def insertLe {α : Type} (le : α → α → Bool) (x : α) : List α → List α
  | [] => [x]
  | y :: ys => if le y x then y :: insertLe le x ys else x :: y :: ys

/-- Stable insertion sort. -/
def sortLe {α : Type} (le : α → α → Bool) (l : List α) : List α :=
  l.foldl (fun acc x => insertLe le x acc) []

/-! ## Frequencies -/

inductive Frequency where
  | DAILY
  | WEEKLY
  | MONTHLY
  | YEARLY
  | HOURLY
  | MINUTELY
deriving DecidableEq, Repr

def freqToString : Frequency → String
  | .DAILY => "DAILY"
  | .WEEKLY => "WEEKLY"
  | .MONTHLY => "MONTHLY"
  | .YEARLY => "YEARLY"
  | .HOURLY => "HOURLY"
  | .MINUTELY => "MINUTELY"

/-! ## Frequency keyword / interval matching (src/matchers.ts, src/parsers.ts) -/

/-- The explicit frequency-keyword cascade of `matchPatterns` (first
match wins); `quarterly` also sets the interval to 3. -/
def matchFreqKeyword (t : List Char) : Option Frequency × Option Nat :=
  if containsWordP "hourly" t || adjPhraseP "every" "hour" t then (some .HOURLY, none)
  else if containsWordP "daily" t || adjPhraseP "every" "day" t then (some .DAILY, none)
  else if containsWordP "weekly" t || adjPhraseP "every" "week" t then (some .WEEKLY, none)
  else if containsWordP "monthly" t || adjPhraseP "every" "month" t then (some .MONTHLY, none)
  else if containsWordP "yearly" t || containsWordP "annually" t ||
      adjPhraseP "every" "year" t then (some .YEARLY, none)
  else if containsWordP "quarterly" t then (some .MONTHLY, some 3)
  else (none, none)

/-- Greedy `\d+` at the head: its value and the rest. -/
def digitsRun1 (cs : List Char) : Option (Nat × List Char) :=
  match cs with
  | c :: _ =>
    if isDigitCh c then
      some (digitsToNat (cs.takeWhile isDigitCh), cs.dropWhile isDigitCh)
    else none
  | [] => none

/-- The interval units, in the alternation order of the source regex. -/
def unitAt (cs : List Char) : Option String :=
  firstSome ["minute", "hour", "day", "week", "month", "year"] fun u =>
    (litAt u.data cs).map fun _ => u

/-- `every\s+(\d+)\s+(minute|hour|day|week|month|year)s?` at this position. -/
def intervalHereTest (cs : List Char) : Option (Nat × String) :=
  match litAt "every".data cs with
  | none => none
  | some r1 =>
    match ws1T r1 with
    | none => none
    | some r2 =>
      match digitsRun1 r2 with
      | none => none
      | some (v, r3) =>
        match ws1T r3 with
        | none => none
        | some r4 =>
          match unitAt r4 with
          | some u => some (v, u)
          | none => none

/-- The spelled-out number words, in the alternation order of the
source regex, with the values `parseSpelledNumber` assigns them
(`other` means 2). -/
def numberWords : List (String × Nat) :=
  [("one", 1), ("two", 2), ("three", 3), ("four", 4), ("five", 5),
   ("six", 6), ("seven", 7), ("eight", 8), ("nine", 9), ("ten", 10),
   ("eleven", 11), ("twelve", 12), ("thirteen", 13), ("fourteen", 14),
   ("fifteen", 15), ("sixteen", 16), ("seventeen", 17), ("eighteen", 18),
   ("nineteen", 19), ("twenty", 20), ("other", 2)]

/-- `every\s+(one|…|twenty|other)\s+(minute|…|year)s?` at this position. -/
def spelledHereTest (cs : List Char) : Option (Nat × String) :=
  match litAt "every".data cs with
  | none => none
  | some r1 =>
    match ws1T r1 with
    | none => none
    | some r2 =>
      firstSome numberWords fun nw =>
        (litAt nw.1.data r2).bind fun r3 =>
          (ws1T r3).bind fun r4 =>
            (unitAt r4).map fun u => (nw.2, u)

/-- `parseInterval(text)`: the digit form is tried over the whole text
before the spelled-out form. -/
def parseInterval (t : String) : Option (Nat × String) :=
  match scanOpt intervalHereTest t.data with
  | some x => some x
  | none => scanOpt spelledHereTest t.data

/-- `for\s+(\d+)\s+occurrences?` at this position. -/
def countHereTest (cs : List Char) : Option Nat :=
  match litAt "for".data cs with
  | none => none
  | some r1 =>
    match ws1T r1 with
    | none => none
    | some r2 =>
      match digitsRun1 r2 with
      | none => none
      | some (v, r3) =>
        match ws1T r3 with
        | none => none
        | some r4 =>
          match litAt "occurrence".data r4 with
          | some _ => some v
          | none => none

/-- `parseCount(text)`. -/
def parseCount (t : String) : Option Nat := scanOpt countHereTest t.data

/-- `for\s+(\d+)\s+(day|week|month|year)s?` at this position. -/
def durationHereTest (cs : List Char) : Option (Nat × String) :=
  match litAt "for".data cs with
  | none => none
  | some r1 =>
    match ws1T r1 with
    | none => none
    | some r2 =>
      match digitsRun1 r2 with
      | none => none
      | some (v, r3) =>
        match ws1T r3 with
        | none => none
        | some r4 =>
          match firstSome ["day", "week", "month", "year"]
              (fun u => (litAt u.data r4).map fun _ => u) with
          | some u => some (v, u)
          | none => none

/-- `parseDuration(text)`. -/
def parseDuration (t : String) : Option (Nat × String) :=
  scanOpt durationHereTest t.data

/-! ## `parseStartDate` (src/parsers.ts) -/

/-- Take exactly `n` digits. -/
def digitsExact : Nat → List Char → Option (List Char × List Char)
  | 0, cs => some ([], cs)
  | _ + 1, [] => none
  | n + 1, c :: cs =>
    if isDigitCh c then (digitsExact n cs).map fun p => (c :: p.1, p.2)
    else none

/-- `starting\s+(\d{4})-(\d{2})-(\d{2})` at this position, producing
`YYYYMMDD`. -/
def isoHereTest (cs : List Char) : Option String :=
  match litAt "starting".data cs with
  | none => none
  | some r1 =>
    match ws1T r1 with
    | none => none
    | some r2 =>
      (digitsExact 4 r2).bind fun y =>
        (litAt ['-'] y.2).bind fun r3 =>
          (digitsExact 2 r3).bind fun mo =>
            (litAt ['-'] mo.2).bind fun r4 =>
              (digitsExact 2 r4).map fun d => String.mk (y.1 ++ mo.1 ++ d.1)

/-- Full month names with their two-digit numbers, in source order. -/
def monthFull : List (String × String) :=
  [("january", "01"), ("february", "02"), ("march", "03"), ("april", "04"),
   ("may", "05"), ("june", "06"), ("july", "07"), ("august", "08"),
   ("september", "09"), ("october", "10"), ("november", "11"), ("december", "12")]

/-- `starting\s+(monthname)\s+(\d{1,2}),?\s+(\d{4})` at this position,
producing `YYYYMMDD` with the day zero-padded. -/
def mnameHereTest (cs : List Char) : Option String :=
  match litAt "starting".data cs with
  | none => none
  | some r1 =>
    match ws1T r1 with
    | none => none
    | some r2 =>
      firstSome monthFull fun me =>
        (litAt me.1.data r2).bind fun r3 =>
          (ws1T r3).bind fun r4 =>
            firstSome (digitCands r4) fun dc =>
              let r5 := match dc.2 with
                | ',' :: rest => rest
                | _ => dc.2
              (ws1T r5).bind fun r6 =>
                (digitsExact 4 r6).map fun y =>
                  String.mk (y.1 ++ me.2.data ++
                    (if dc.1.length = 1 then '0' :: dc.1 else dc.1))

/-- `parseStartDate(text)`: ISO form first, then month-name form. -/
def parseStartDate (t : String) : Option String :=
  match scanOpt isoHereTest t.data with
  | some x => some x
  | none => scanOpt mnameHereTest t.data

/-! ## Weekday / month / month-day / nth-weekday matchers (src/matchers.ts) -/

/-- The weekday name table, in source iteration order. -/
def dayEntries : List (String × String) :=
  [("monday", "MO"), ("mon", "MO"), ("tuesday", "TU"), ("tue", "TU"),
   ("tues", "TU"), ("wednesday", "WE"), ("wed", "WE"), ("thursday", "TH"),
   ("thu", "TH"), ("thur", "TH"), ("thurs", "TH"), ("friday", "FR"),
   ("fri", "FR"), ("saturday", "SA"), ("sat", "SA"), ("sunday", "SU"),
   ("sun", "SU")]

/-- `matchWeekdays(text)`: `weekday(s)` and `weekend(s)` take priority,
otherwise each day name as a whole word, deduplicated, first-seen order. -/
def matchWeekdays (t : String) : List String :=
  if containsWordP "weekday" t.data || containsWordP "weekdays" t.data then
    ["MO", "TU", "WE", "TH", "FR"]
  else if containsWordP "weekend" t.data || containsWordP "weekends" t.data then
    ["SA", "SU"]
  else
    dayEntries.foldl
      (fun acc e =>
        if containsWordP e.1 t.data && !(acc.contains e.2) then acc ++ [e.2]
        else acc)
      []

/-- The month name table, in source iteration order. -/
def monthEntries : List (String × Nat) :=
  [("january", 1), ("jan", 1), ("february", 2), ("feb", 2), ("march", 3),
   ("mar", 3), ("april", 4), ("apr", 4), ("may", 5), ("june", 6), ("jun", 6),
   ("july", 7), ("jul", 7), ("august", 8), ("aug", 8), ("september", 9),
   ("sep", 9), ("sept", 9), ("october", 10), ("oct", 10), ("november", 11),
   ("nov", 11), ("december", 12), ("dec", 12)]

/-- `matchMonths(text)`: every month name as a whole word, deduplicated,
then sorted ascending. -/
def matchMonths (t : String) : List Nat :=
  sortLe (fun a b => decide (a ≤ b))
    (monthEntries.foldl
      (fun acc e =>
        if containsWordP e.1 t.data && !(acc.contains e.2) then acc ++ [e.2]
        else acc)
      [])

/-- `last\s+day\s+of\s+(?:the\s+|every\s+)?month\b` is literally here. -/
def lastDayHereTest (cs : List Char) : Bool :=
  (Option.isSome <| do
    let r1 ← litAt "last".data cs
    let r2 ← ws1T r1
    let r3 ← litAt "day".data r2
    let r4 ← ws1T r3
    let r5 ← litAt "of".data r4
    let r6 ← ws1T r5
    let r7 :=
      match (litAt "the".data r6).bind ws1T with
      | some x => x
      | none =>
        match (litAt "every".data r6).bind ws1T with
        | some x => x
        | none => r6
    let r8 ← litAt "month".data r7
    if boundaryOk r8 then some () else none)

/-- The `st|nd|rd|th` ordinal suffixes, in alternation order. -/
def ordSuffixAt (cs : List Char) : Option (List Char) :=
  firstSome [['s', 't'], ['n', 'd'], ['r', 'd'], ['t', 'h']] fun sfx =>
    litAt sfx cs

/-- `(\d{1,2})(?:st|nd|rd|th)\b` at this position. -/
def ordTokenAt (cs : List Char) : Option (Nat × List Char) :=
  firstSome (digitCands cs) fun dc =>
    match ordSuffixAt dc.2 with
    | some rest => if boundaryOk rest then some (digitsToNat dc.1, rest) else none
    | none => none

/-- The `/g` scan for ordinal tokens, with the `\b` before each match
and resumption after each match.  Fuel only serves termination. -/
def ordScanAux : Nat → Bool → List Char → List Nat
  | 0, _, _ => []
  | _, _, [] => []
  | fuel + 1, prevW, c :: cs =>
    match (if prevW then none else ordTokenAt (c :: cs)) with
    | some (d, rest) => d :: ordScanAux fuel true rest
    | none => ordScanAux fuel (isWordCh c) cs

/-- `matchMonthDays(text)`: the last-day sentinel `[-1]` wins outright;
otherwise ordinal tokens 1–31, deduplicated, sorted ascending. -/
def matchMonthDays (t : String) : List Int :=
  if scanBoundary lastDayHereTest false t.data then [-1]
  else
    sortLe (fun a b => decide (a ≤ b))
      ((ordScanAux t.length false t.data).foldl
        (fun acc d =>
          if 1 ≤ d && d ≤ 31 && !(acc.contains (Int.ofNat d)) then
            acc ++ [Int.ofNat d]
          else acc)
        [])

/-- The nth-weekday position words with their ordinal strings. -/
def nthPositions : List (String × String) :=
  [("first", "1"), ("second", "2"), ("third", "3"), ("fourth", "4"),
   ("fifth", "5"), ("last", "-1")]

/-- The full weekday names used by the nth-weekday matcher. -/
def nthDays : List (String × String) :=
  [("monday", "MO"), ("tuesday", "TU"), ("wednesday", "WE"),
   ("thursday", "TH"), ("friday", "FR"), ("saturday", "SA"), ("sunday", "SU")]

/-- First pass: direct `position day` adjacency. -/
def nthPass1 (t : List Char) : List String :=
  nthPositions.foldl
    (fun acc p =>
      nthDays.foldl
        (fun acc d =>
          if adjPhraseP p.1 d.1 t then
            let combo := p.2 ++ d.2
            if acc.contains combo then acc else acc ++ [combo]
          else acc)
        acc)
    []

/-- Second pass: position word followed (same sentence, no `.`) by a
day name. -/
def nthPass2 (t : List Char) (acc0 : List String) : List String :=
  nthDays.foldl
    (fun acc d =>
      if containsWordP d.1 t then
        nthPositions.foldl
          (fun acc p =>
            if gapPhraseP p.1 d.1 t then
              let combo := p.2 ++ d.2
              if acc.contains combo then acc else acc ++ [combo]
            else acc)
          acc
      else acc)
    acc0

/-- The first `-?\d+` in a string, as an integer (the sort key the
source comparator extracts; `0` when absent). -/
def firstIntIn : List Char → Option Int
  | [] => none
  | c :: cs =>
    if isDigitCh c then some (Int.ofNat (digitsToNat ((c :: cs).takeWhile isDigitCh)))
    else if c = '-' then
      match cs with
      | d :: _ =>
        if isDigitCh d then some (-(Int.ofNat (digitsToNat (cs.takeWhile isDigitCh))))
        else firstIntIn cs
      | [] => none
    else firstIntIn cs

def nthOrd (s : String) : Int := (firstIntIn s.data).getD 0

/-- The sort key of the nth-weekday comparator: ordinals ascending with
`-1` ("last") keyed above every ordinal so it sorts to the end. -/
def nthKeyVal (s : String) : Int := if nthOrd s = -1 then 6 else nthOrd s

/-- `matchNthWeekdays(text)`: both passes, deduplicated, then sorted by
ordinal with `-1` entries trailing. -/
def matchNthWeekdays (t : String) : List String :=
  sortLe (fun a b => decide (nthKeyVal a ≤ nthKeyVal b))
    (nthPass2 t.data (nthPass1 t.data))

/-! ## `matchHourRange` (src/matchers.ts) -/

/-- Second endpoint of the range:
`(\d{1,2})(?::(\d{2}))?\s*(am|pm)?` with nothing after, so the greedy
first candidate always wins. -/
def hrSecond (cs : List Char) : Option (Nat × Option Meridiem) :=
  firstSome (digitCands cs) fun hc =>
    let mmCands : List (List Char) :=
      (match hc.2 with
       | ':' :: d1 :: d2 :: r2 =>
         if isDigitCh d1 && isDigitCh d2 then [r2] else []
       | _ => []) ++ [hc.2]
    firstSome mmCands fun r2 =>
      some (digitsToNat hc.1,
        match meridAt (r2.dropWhile isWs) with
        | some (p, _) => some p
        | none => none)

/-- `and\s+` then the second endpoint, starting at the `and`. -/
def hrAnd (cs : List Char) : Option (Nat × Option Meridiem) :=
  match litAt "and".data cs with
  | none => none
  | some r1 =>
    match ws1T r1 with
    | none => none
    | some r2 => hrSecond r2

/-- The body of the hour-range regex after the literal `between`:
`\s+(\d{1,2})(?::(\d{2}))?\s*(am|pm)?\s+and\s+…`, with the
meridiem-present branch tried before the meridiem-absent one (which
needs at least one whitespace for `\s+`). -/
def hrBodyAt (cs : List Char) : Option (Nat × Option Meridiem × Nat × Option Meridiem) :=
  match ws1T cs with
  | none => none
  | some cs1 =>
    firstSome (digitCands cs1) fun hc =>
      let mmCands : List (List Char) :=
        (match hc.2 with
         | ':' :: d1 :: d2 :: r2 =>
           if isDigitCh d1 && isDigitCh d2 then [r2] else []
         | _ => []) ++ [hc.2]
      firstSome mmCands fun r2 =>
        let hasWs : Bool := match r2 with
          | c :: _ => isWs c
          | [] => false
        let r := r2.dropWhile isWs
        let withP : Option (Nat × Option Meridiem × Nat × Option Meridiem) :=
          match meridAt r with
          | some (p, r3) =>
            match ws1T r3 with
            | none => none
            | some r4 =>
              match hrAnd r4 with
              | some (e, ep) => some (digitsToNat hc.1, some p, e, ep)
              | none => none
          | none => none
        match withP with
        | some x => some x
        | none =>
          if hasWs then
            match hrAnd r with
            | some (e, ep) => some (digitsToNat hc.1, none, e, ep)
            | none => none
          else none

/-- Leftmost `between …` match in the text. -/
def matchHourRangeAux : List Char → Option (Nat × Option Meridiem × Nat × Option Meridiem)
  | [] => none
  | c :: cs =>
    match
      (match litAt "between".data (c :: cs) with
       | some r => hrBodyAt r
       | none => none) with
    | some x => some x
    | none => matchHourRangeAux cs

/-- 12-hour → 24-hour conversion used by the hour-range matcher. -/
def to24 (h : Nat) (p : Option Meridiem) : Nat :=
  match p with
  | some .pm => if h ≠ 12 then h + 12 else h
  | some .am => if h = 12 then 0 else h
  | none => h

/-- The enumeration loops of `matchHourRange`: overnight ranges wrap as
`start..23` followed by `0..end`; otherwise `start..end` inclusive. -/
def expandHourRange (s e : Nat) : List Nat :=
  if e < s then List.range' s (24 - s) ++ List.range' 0 (e + 1)
  else List.range' s (e + 1 - s)

/-- `matchHourRange(text)`. -/
def matchHourRange (t : String) : Option (List Nat) :=
  match matchHourRangeAux t.data with
  | some (sh, sp, eh, ep) => some (expandHourRange (to24 sh sp) (to24 eh ep))
  | none => none

/-! ## `matchPatterns` (src/matchers.ts) -/

/-- The match state extracted from one input. -/
structure MatchResult where
  frequency : Option Frequency
  interval : Option Nat
  weekdays : List String
  monthDays : List Int
  months : List Nat
  nthWeekdays : List String
  times : List ParsedTime
  hourRange : Option (List Nat)
  count : Option Nat
deriving DecidableEq, Repr

/-- `minute|hour|day|week|month|year` → frequency (the `switch` in
`matchPatterns`; an unrecognised unit leaves the frequency untouched). -/
def unitToFreq : String → Option Frequency
  | "minute" => some .MINUTELY
  | "hour" => some .HOURLY
  | "day" => some .DAILY
  | "week" => some .WEEKLY
  | "month" => some .MONTHLY
  | "year" => some .YEARLY
  | _ => none

/-- The sequential frequency-overwrite cascade of `matchPatterns`, in
source order: weekday default (WEEKLY), nth-weekday force (MONTHLY),
month-day default (MONTHLY), then adjustment rules 1–5 (rule 5,
hour range + weekdays → HOURLY, is applied last and unconditionally). -/
def resolveFrequency (base : Option Frequency) (weekdays nthWeekdays : List String)
    (monthDays : List Int) (months : List Nat)
    (hourRange : Option (List Nat)) : Option Frequency :=
  let f2 := if weekdays ≠ [] ∧ base = none then some .WEEKLY else base
  let f3 := if nthWeekdays ≠ [] then some .MONTHLY else f2
  let f4 := if monthDays ≠ [] ∧ f3 = none then some .MONTHLY else f3
  let f5 := if hourRange.isSome ∧ f4 = none then some .HOURLY else f4
  let f6 := if months ≠ [] ∧ nthWeekdays ≠ [] then some .YEARLY else f5
  let f7 := if months ≠ [] ∧ weekdays ≠ [] ∧ nthWeekdays = [] then some .YEARLY else f6
  let f8 := if months ≠ [] ∧ f7 = none then some .YEARLY else f7
  if hourRange.isSome ∧ weekdays ≠ [] then some .HOURLY else f8

/-- The frequency before the cascade: an interval match overwrites the
keyword frequency according to its unit. -/
def baseFrequency (text : String) : Option Frequency :=
  match parseInterval text with
  | some vu =>
    match unitToFreq vu.2 with
    | some f => some f
    | none => (matchFreqKeyword text.data).1
  | none => (matchFreqKeyword text.data).1

/-- The interval: an interval match overwrites the keyword-set interval
(`quarterly`). -/
def baseInterval (text : String) : Option Nat :=
  match parseInterval text with
  | some vu => some vu.1
  | none => (matchFreqKeyword text.data).2

/-- `matchPatterns(text)`: run every extractor over the normalized text
and resolve the frequency.  The field extractors are independent of the
frequency, so computing them before the cascade preserves the source's
sequential semantics. -/
def matchPatterns (text : String) : MatchResult :=
  { frequency := resolveFrequency (baseFrequency text) (matchWeekdays text)
      (matchNthWeekdays text) (matchMonthDays text) (matchMonths text)
      (matchHourRange text)
    interval := baseInterval text
    weekdays := matchWeekdays text
    monthDays := matchMonthDays text
    months := matchMonths text
    nthWeekdays := matchNthWeekdays text
    times := extractTimes text
    hourRange := matchHourRange text
    count := parseCount text }

/-! ## `detectConflicts` (src/index.ts) -/

def msgConflictHourlyNth : String :=
  "Conflicting patterns: hourly/minutely frequency cannot be combined with nth weekday patterns (e.g., \x27first monday\x27). Please use a daily, weekly, or monthly frequency."

def msgConflictDailyNth : String :=
  "Conflicting patterns: daily frequency cannot be combined with nth weekday patterns (e.g., \x27first monday\x27). Please use weekly or monthly frequency."

def msgConflictYearlyMonthDays : String :=
  "Ambiguous pattern: yearly frequency with specific days (e.g., \x2715th\x27) requires specifying which month(s). Please add a month like \x27in january\x27."

def msgConflictMinutelyTimes : String :=
  "Conflicting patterns: cannot combine interval-based minutely recurrence (e.g., \x27every 15 minutes\x27) with specific times (e.g., \x27at 9am\x27). Choose one approach."

def msgConflictHourlyMinutes : String :=
  "Conflicting patterns: interval-based hourly recurrence (e.g., \x27every 2 hours\x27) with non-zero minutes is ambiguous. Use \x27at :00\x27 for on-the-hour times."

def msgConflictHourRangePre : String :=
  "Conflicting patterns: hour ranges (e.g., \x27between 9am and 5pm\x27) require hourly or minutely frequency. Current frequency is "

/-- JS string coercion of `matches.frequency` (a nullable string). -/
def freqShow : Option Frequency → String
  | some f => freqToString f
  | none => "null"

/-- `matches.interval && matches.interval > 1`. -/
def intervalGt1 (m : MatchResult) : Bool :=
  match m.interval with
  | some i => 1 < i
  | none => false

/-- `matches.times.length > 0 && matches.times[0].minute !== 0`: only
the first parsed time is inspected. -/
def firstMinuteNonzero (ts : List ParsedTime) : Bool :=
  match ts with
  | t :: _ => t.minute ≠ 0
  | [] => false

/-- `detectConflicts(matches)`: the first triggered rule wins. -/
def detectConflicts (m : MatchResult) : Option String :=
  if (m.frequency = some .HOURLY ∨ m.frequency = some .MINUTELY) ∧ m.nthWeekdays ≠ [] then
    some msgConflictHourlyNth
  else if m.frequency = some .DAILY ∧ m.nthWeekdays ≠ [] then
    some msgConflictDailyNth
  else if m.frequency = some .YEARLY ∧ m.monthDays ≠ [] ∧ m.months = [] then
    some msgConflictYearlyMonthDays
  else if intervalGt1 m ∧ m.frequency = some .MINUTELY ∧ m.times ≠ [] ∧ m.hourRange = none then
    some msgConflictMinutelyTimes
  else if intervalGt1 m ∧ m.frequency = some .HOURLY ∧ firstMinuteNonzero m.times then
    some msgConflictHourlyMinutes
  else if m.hourRange.isSome ∧ m.frequency ≠ some .HOURLY ∧ m.frequency ≠ some .MINUTELY then
    some (msgConflictHourRangePre ++ freqShow m.frequency ++ ".")
  else none

/-! ## `durationToCount` (src/parsers.ts)

The conversion table holds fractional multipliers; the source computes
with JS numbers, modelled here by exact rationals. -/

/-- The per-frequency, per-unit multiplier table
(`conversionTable[frequency]?.[unit]`). -/
def multTable (f : Frequency) (unit : String) : Option ℚ :=
  match f, unit with
  | .DAILY, "day" => some 1
  | .DAILY, "week" => some 7
  | .DAILY, "month" => some 30
  | .DAILY, "year" => some 365
  | .WEEKLY, "day" => some (1 / 7)
  | .WEEKLY, "week" => some 1
  | .WEEKLY, "month" => some 4
  | .WEEKLY, "year" => some 52
  | .MONTHLY, "day" => some (1 / 30)
  | .MONTHLY, "week" => some (1 / 4)
  | .MONTHLY, "month" => some 1
  | .MONTHLY, "year" => some 12
  | .YEARLY, "day" => some (1 / 365)
  | .YEARLY, "week" => some (1 / 52)
  | .YEARLY, "month" => some (1 / 12)
  | .YEARLY, "year" => some 1
  | .HOURLY, "day" => some 24
  | .HOURLY, "week" => some 168
  | .HOURLY, "month" => some 720
  | .HOURLY, "year" => some 8760
  | .MINUTELY, "day" => some 1440
  | .MINUTELY, "week" => some 10080
  | .MINUTELY, "month" => some 43200
  | .MINUTELY, "year" => some 525600
  | _, _ => none

/-- `durationToCount(duration, frequency, interval, weekdayCount)`:
raw count = value × multiplier, divided by the interval and floored;
multiplied by the weekday count for WEEKLY with more than one weekday;
`none` when the frequency/unit pair has no multiplier. -/
def durationToCount (value : Nat) (unit : String) (frequency : Frequency)
    (interval : Nat) (weekdayCount : Nat) : Option Int :=
  match multTable frequency unit with
  | none => none
  | some mult =>
    let rawCount : ℚ := (value : ℚ) * mult
    let countWithInterval : Int := ⌊rawCount / (interval : ℚ)⌋
    if frequency = .WEEKLY ∧ 1 < weekdayCount then
      some (countWithInterval * weekdayCount)
    else some countWithInterval

/-! ## `buildRRule` / `normalizeMatches` (src/rrule-builder.ts) -/

def joinNats (l : List Nat) : String := String.intercalate "," (l.map toString)

def joinInts (l : List Int) : String := String.intercalate "," (l.map toString)

/-- The deduplicated (first-seen order) BYHOUR list derived from times. -/
def timesHours (m : MatchResult) : List Nat :=
  (m.times.map (·.hour24)).eraseDups

/-- The deduplicated, ascending BYMINUTE list derived from times. -/
def timesMinutes (m : MatchResult) : List Nat :=
  sortLe (fun a b => decide (a ≤ b)) (m.times.map (·.minute)).eraseDups

/-- The `parts` array of `buildRRule`, in the fixed field order
FREQ, INTERVAL, COUNT, BYMONTH, BYDAY, BYMONTHDAY, BYHOUR, BYMINUTE.
`BYHOUR` from the hour range wins over times-derived hours and is a
silent wildcard when all 24 hours occur; `BYMINUTE` is emitted only
when times are present and no hour range is. -/
def buildParts (m : MatchResult) (f : Frequency) : List String :=
  let p2 : List String :=
    ["FREQ=" ++ freqToString f] ++
      (match m.interval with
       | some i => if 1 < i then ["INTERVAL=" ++ toString i] else []
       | none => [])
  let p3 := p2 ++
    (match m.count with
     | some c => if c ≠ 0 then ["COUNT=" ++ toString c] else []
     | none => [])
  let p4 := p3 ++ (if m.months ≠ [] then ["BYMONTH=" ++ joinNats m.months] else [])
  let p5 := p4 ++
    (if m.nthWeekdays ≠ [] then ["BYDAY=" ++ String.intercalate "," m.nthWeekdays]
     else if m.weekdays ≠ [] then ["BYDAY=" ++ String.intercalate "," m.weekdays]
     else [])
  let p6 := p5 ++ (if m.monthDays ≠ [] then ["BYMONTHDAY=" ++ joinInts m.monthDays] else [])
  let p7 := p6 ++
    (match m.hourRange with
     | some hrs => ["BYHOUR=" ++ joinNats hrs]
     | none =>
       if m.times ≠ [] then
         if timesHours m ≠ [] ∧ (timesHours m).length ≠ 24 then
           ["BYHOUR=" ++ joinNats (timesHours m)]
         else []
       else [])
  p7 ++
    (if m.times ≠ [] ∧ m.hourRange = none then
      if timesMinutes m ≠ [] then ["BYMINUTE=" ++ joinNats (timesMinutes m)] else []
    else [])

/-- `buildRRule(matches)`: throws (modelled as `.error`) when the
frequency is unset. -/
def buildRRule (m : MatchResult) : Except String String :=
  match m.frequency with
  | none => .error "Frequency is required for RRULE"
  | some f => .ok (String.intercalate ";" (buildParts m f))

/-- `normalizeMatches(matches)`: the source computes some locals but
returns an unchanged shallow copy — it is the identity. -/
def normalizeMatches (m : MatchResult) : MatchResult := m

/-! ## The orchestrator `rruled` (src/index.ts) -/

/-- The conversion result: one or more RRULE strings (with an optional
`DTSTART` date) or an `unsupported` reason. -/
inductive RRuleResult where
  | rrules (rules : List String) (dtstart : Option String)
  | unsupported (msg : String)
deriving DecidableEq, Repr

def msgEmpty : String :=
  "Could not understand the input. Please provide a schedule description."

def msgNoFreq : String :=
  "Could not understand the input. Please use natural language like \x27every monday at 9am\x27."

def invalidTimeMsg (tok : String) : String :=
  "Invalid time value \"" ++ tok ++ "\". Hours must be 0-23 (or 1-12 with am/pm) and minutes must be 0-59."

def ambiguousMsg (c n : Nat) : String :=
  "Ambiguous: specified " ++ toString c ++ " occurrence(s) but " ++ toString n ++
    " different times. Unable to determine which times should fire. Please specify \"for " ++
    toString n ++ " occurrences\" or more, or reduce the number of times."

/-- One attempt of the pre-scan pattern
`(?:at\s+|^|\s)(-?\d{1,2})(:\d{2})?\s*(am|pm)?(?:\s|$)` at the current
position.  Returns the time token (as the source derives it:
`match[0].trim()` with a leading `at\s+` stripped) and the rest of the
text after the whole match. -/
def preScanAt (atStart : Bool) (cs : List Char) : Option (List Char × List Char) :=
  let afterPre : List (List Char) :=
    (match litAt "at".data cs with
     | some r1 =>
       match ws1T r1 with
       | some r2 => [r2]
       | none => []
     | none => []) ++
    (if atStart then [cs] else []) ++
    (match cs with
     | c :: rest => if isWs c then [rest] else []
     | [] => [])
  firstSome afterPre fun cs1 =>
    let sr : List Char × List Char :=
      match cs1 with
      | '-' :: rest => (['-'], rest)
      | _ => ([], cs1)
    firstSome (digitCands sr.2) fun hc =>
      let mmCands : List (List Char × List Char) :=
        (match hc.2 with
         | ':' :: d1 :: d2 :: r2 =>
           if isDigitCh d1 && isDigitCh d2 then [([':', d1, d2], r2)] else []
         | _ => []) ++ [([], hc.2)]
      firstSome mmCands fun mc =>
        let base := sr.1 ++ hc.1 ++ mc.1
        let w := mc.2.takeWhile isWs
        let r := mc.2.dropWhile isWs
        (match meridAt r with
         | some (p, r3) =>
           match r3 with
           | c :: rest => if isWs c then some (base ++ w ++ meridChars p, rest) else none
           | [] => some (base ++ w ++ meridChars p, [])
         | none => none).orElse fun _ =>
          if w = [] then
            match r with
            | [] => some (base, [])
            | _ => none
          else some (base, r)

/-- Substring test (JS `String.prototype.includes` / unanchored test). -/
def hasSubstr (w : List Char) : List Char → Bool
  | [] => (litAt w []).isSome
  | c :: cs => (litAt w (c :: cs)).isSome || hasSubstr w cs

/-- The anchored shape filter `^-?\d{1,2}(:\d{2})?(am|pm)?$`. -/
def anchoredTimeShape (cs0 : List Char) : Bool :=
  let cs := match cs0 with
    | '-' :: rest => rest
    | _ => cs0
  (firstSome (digitCands cs) fun hc =>
    let mmCands : List (List Char) :=
      (match hc.2 with
       | ':' :: d1 :: d2 :: r2 =>
         if isDigitCh d1 && isDigitCh d2 then [r2] else []
       | _ => []) ++ [hc.2]
    firstSome mmCands fun r2 =>
      let r3 := match meridAt r2 with
        | some (_, rr) => rr
        | none => r2
      match r3 with
      | [] => some ()
      | _ => none).isSome

/-- The pre-scan loop: scan each pattern match left to right (resuming
after each match, as `matchAll` does); a match whose token looks
time-shaped (contains a colon or an am/pm substring) and fits the
anchored shape but fails `parseTime` is reported.  Fuel only serves
termination. -/
def preScanLoop : Nat → Bool → List Char → Option (List Char)
  | 0, _, _ => none
  | _, _, [] => none
  | fuel + 1, atStart, c :: cs =>
    match preScanAt atStart (c :: cs) with
    | some (timeStr, rest) =>
      if (timeStr.contains ':' || hasSubstr "am".data timeStr ||
          hasSubstr "pm".data timeStr) && anchoredTimeShape timeStr then
        match parseTimeChars timeStr with
        | none => some timeStr
        | some _ => preScanLoop fuel false rest
      else preScanLoop fuel false rest
    | none => preScanLoop fuel false cs

/-- The orchestrator's invalid-time pre-scan: the first time-shaped,
out-of-bounds token found by the pattern, if any. -/
def findInvalidTime (t : String) : Option String :=
  (preScanLoop (t.length + 1) true t.data).map String.mk

/-- Per-rule COUNT share in the cartesian split: floor division plus
one for the first `count % numTimes` rules. -/
def ruleCountShare (c n i : Nat) : Nat :=
  c / n + (if i < c % n then 1 else 0)

/-- The cartesian-split condition: more than one time, no hour range,
and more than one distinct minute and more than one distinct hour. -/
def splitCond (m : MatchResult) : Bool :=
  1 < m.times.length && m.hourRange.isNone &&
    1 < ((m.times.map (·.minute)).eraseDups).length &&
    1 < ((m.times.map (·.hour24)).eraseDups).length

/-- Build every per-time RRULE, stopping at the first construction
error (the `try`/`catch` around the split loop). -/
def buildAll : List MatchResult → Except String (List String)
  | [] => .ok []
  | m :: rest =>
    match buildRRule (normalizeMatches m) with
    | .error e => .error e
    | .ok r =>
      match buildAll rest with
      | .error e => .error e
      | .ok rs => .ok (r :: rs)

/-- The tail of `rruled` after validation: the cartesian split (one
RRULE per time, with COUNT either absent, distributed, or rejected as
ambiguous when smaller than the number of times) or the normal single
RRULE. -/
def finishRRule (m : MatchResult) (dtstart : Option String) : RRuleResult :=
  if splitCond m then
    let n := m.times.length
    match m.count with
    | some c =>
      if c < n then .unsupported (ambiguousMsg c n)
      else
        match buildAll (m.times.enum.map fun it =>
            { m with times := [it.2], count := some (ruleCountShare c n it.1) }) with
        | .ok rs => .rrules rs dtstart
        | .error e => .unsupported ("Could not construct a valid RRULE: " ++ e)
    | none =>
      match buildAll (m.times.enum.map fun it =>
          { m with times := [it.2], count := none }) with
      | .ok rs => .rrules rs dtstart
      | .error e => .unsupported ("Could not construct a valid RRULE: " ++ e)
  else
    match buildRRule (normalizeMatches m) with
    | .ok r => .rrules [r] dtstart
    | .error e => .unsupported ("Could not construct a valid RRULE: " ++ e)

/-- The duration→COUNT step of `rruled`: applies only when a duration
phrase is present and no (truthy) COUNT was extracted.  `interval || 1`
maps both a missing and a zero interval to 1. -/
def applyDuration (t : String) (m : MatchResult) (f : Frequency) : MatchResult :=
  match parseDuration t with
  | some vu =>
    if m.count = none ∨ m.count = some 0 then
      let weekdayCount := if 0 < m.weekdays.length then m.weekdays.length else 1
      let iv := match m.interval with
        | some i => if i = 0 then 1 else i
        | none => 1
      match durationToCount vu.1 vu.2 f iv weekdayCount with
      | some c => if 0 < c then { m with count := some c.toNat } else m
      | none => m
    else m
  | none => m

/-- `rruled(input)`: normalize, reject empty input, run the invalid-time
pre-scan, match patterns, require a frequency, detect conflicts,
convert a duration phrase to COUNT, parse a start date, then build. -/
def rruled (input : String) : RRuleResult :=
  let t := normalizeInput input
  if t = "" then .unsupported msgEmpty
  else
    match findInvalidTime t with
    | some tok => .unsupported (invalidTimeMsg tok)
    | none =>
      let m := matchPatterns t
      match m.frequency with
      | none => .unsupported msgNoFreq
      | some f =>
        match detectConflicts m with
        | some e => .unsupported e
        | none => finishRRule (applyDuration t m f) (parseStartDate t)

/-! ## Statement helpers -/

/-- Two-digit decimal rendering of a minute field (the 24-hour and
minute-bearing token grammars require exactly two minute digits). -/
def fmt2 (n : Nat) : String := if n < 10 then "0" ++ toString n else toString n

/-- `w` is a prefix of `s`. -/
def strBegins (w s : String) : Bool := (litAt w.data s.data).isSome

example : normalizeInput "  Every   Monday,,  at 9AM " = "every monday, at 9am" := by
  decide

example : parseTime "9:30pm" = some ⟨21, 30⟩ := by decide
example : parseTime "noon" = some ⟨12, 0⟩ := by decide
example : parseTime "midnight" = some ⟨0, 0⟩ := by decide
example : parseTime "13pm" = none := by decide
example : parseTime "9:60am" = none := by decide
example : parseTime "24:00" = none := by decide
example : parseTime "-5:00" = none := by decide
example : parseTime "12am" = some ⟨0, 0⟩ := by decide
example : parseTime "12pm" = some ⟨12, 0⟩ := by decide
example : parseTime "23:59" = some ⟨23, 59⟩ := by decide
example : extractTimes "at 9:15am and 5:45pm every day" = [⟨9, 15⟩, ⟨17, 45⟩] := by decide
example : extractTimes "every day at -5:00" = [] := by decide

/-! ## Supporting lemmas -/

theorem mem_insertLe {α : Type} (le : α → α → Bool) (x a : α) :
    ∀ l : List α, a ∈ insertLe le x l ↔ a = x ∨ a ∈ l := by
  intro l
  induction l with
  | nil => simp [insertLe]
  | cons y ys ih =>
    simp only [insertLe]
    by_cases h : le y x = true
    · rw [if_pos h]
      simp only [List.mem_cons, ih]
      tauto
    · rw [if_neg h]
      simp only [List.mem_cons]

theorem insertLe_pairwise {α γ : Type} [LinearOrder γ] (key : α → γ) (x : α) :
    ∀ l : List α, l.Pairwise (fun a b => key a ≤ key b) →
      (insertLe (fun a b => decide (key a ≤ key b)) x l).Pairwise
        (fun a b => key a ≤ key b) := by
  intro l
  induction l with
  | nil => intro _; simp [insertLe]
  | cons y ys ih =>
    intro hl
    rw [List.pairwise_cons] at hl
    obtain ⟨hy, hys⟩ := hl
    simp only [insertLe]
    by_cases h : key y ≤ key x
    · rw [if_pos (decide_eq_true h)]
      rw [List.pairwise_cons]
      refine ⟨?_, ih hys⟩
      intro b hb
      rcases (mem_insertLe _ x b ys).mp hb with rfl | hb
      · exact h
      · exact hy b hb
    · rw [if_neg (by simpa using h)]
      have hxy : key x ≤ key y := le_of_lt (lt_of_not_le h)
      rw [List.pairwise_cons]
      refine ⟨?_, List.pairwise_cons.mpr ⟨hy, hys⟩⟩
      intro b hb
      rcases List.mem_cons.mp hb with rfl | hb
      · exact hxy
      · exact le_trans hxy (hy b hb)

theorem sortLe_pairwise {α γ : Type} [LinearOrder γ] (key : α → γ) (l : List α) :
    (sortLe (fun a b => decide (key a ≤ key b)) l).Pairwise
      (fun a b => key a ≤ key b) := by
  suffices h : ∀ acc : List α, acc.Pairwise (fun a b => key a ≤ key b) →
      (l.foldl (fun acc x => insertLe (fun a b => decide (key a ≤ key b)) x acc)
        acc).Pairwise (fun a b => key a ≤ key b) by
    exact h [] (by simp)
  induction l with
  | nil => intro acc hacc; simpa using hacc
  | cons x xs ih =>
    intro acc hacc
    exact ih _ (insertLe_pairwise key x acc hacc)

theorem range_map_share_sum (a r : Nat) :
    ∀ k : Nat, ((List.range k).map (fun i => a + if i < r then 1 else 0)).sum
      = k * a + min r k := by
  intro k
  induction k with
  | zero => simp
  | succ n ih =>
    rw [List.range_succ, List.map_append, List.sum_append, ih]
    simp only [List.map_cons, List.map_nil, List.sum_cons, List.sum_nil]
    rw [Nat.succ_mul]
    by_cases h : n < r
    · rw [if_pos h]
      have h1 : min r n = n := by omega
      have h2 : min r (n + 1) = n + 1 := by omega
      omega
    · rw [if_neg h]
      have h1 : min r n = r := by omega
      have h2 : min r (n + 1) = r := by omega
      omega

theorem ruleCountShare_sum (c n : Nat) (hn : 0 < n) :
    ((List.range n).map (ruleCountShare c n)).sum = c := by
  have h := range_map_share_sum (c / n) (c % n) n
  have he : (List.range n).map (ruleCountShare c n) =
      (List.range n).map (fun i => c / n + if i < c % n then 1 else 0) := rfl
  rw [he, h]
  have hmod : c % n < n := Nat.mod_lt _ hn
  have hmin : min (c % n) n = c % n := by omega
  rw [hmin]
  exact Nat.div_add_mod c n

theorem buildAll_ok (f : Frequency) :
    ∀ ms : List MatchResult, (∀ m ∈ ms, m.frequency = some f) →
      buildAll ms = .ok (ms.map fun mm => String.intercalate ";" (buildParts mm f)) := by
  intro ms
  induction ms with
  | nil => intro _; rfl
  | cons m rest ih =>
    intro h
    have hm : m.frequency = some f := h m (by simp)
    have hr := ih fun m' hm' => h m' (List.mem_cons_of_mem _ hm')
    simp [buildAll, buildRRule, normalizeMatches, hm, hr]

theorem ne_of_data_get (s t : String) (i : Nat) (c c' : Char)
    (hs : s.data.get? i = some c) (ht : t.data.get? i = some c') (hc : c ≠ c') :
    s ≠ t := by
  intro h
  subst h
  rw [hs] at ht
  exact hc (Option.some.inj ht)

theorem data_get_append_left (a x : String) (i : Nat) (c : Char)
    (ha : a.data.get? i = some c) : (a ++ x).data.get? i = some c := by
  rw [String.data_append]
  rw [List.get?_append]
  · exact ha
  · exact List.get?_eq_some.mp ha |>.1

/-! ## Claim C5 -/

/-- C5: for every input whose extraction yields a non-null hourRange
and a non-empty weekdays set, the resolved frequency of the MatchState
produced by pattern matching is HOURLY — rule 5 of the override cascade
is applied last and unconditionally, even when months are present and
even though weekdays alone would default the frequency to WEEKLY. -/
theorem claim_C5 :
    ∀ text : String,
      (matchPatterns text).hourRange ≠ none →
      (matchPatterns text).weekdays ≠ [] →
      (matchPatterns text).frequency = some .HOURLY := by
  intro text h1 h2
  have hh : (matchHourRange text).isSome = true := Option.isSome_iff_ne_none.mpr h1
  have hw : matchWeekdays text ≠ [] := h2
  show resolveFrequency (baseFrequency text) (matchWeekdays text)
    (matchNthWeekdays text) (matchMonthDays text) (matchMonths text)
    (matchHourRange text) = some .HOURLY
  simp only [resolveFrequency]
  rw [if_pos ⟨hh, hw⟩]

/-- Witness for C5 at a concrete input that also contains a month
(which on its own would force YEARLY) and weekdays (which on their own
would default to WEEKLY). -/
theorem claim_C5_witness :
    (matchPatterns "every weekday in january between 9am and 5pm").frequency =
        some .HOURLY ∧
      (matchPatterns "every weekday in january between 9am and 5pm").months = [1] :=
  ⟨claim_C5 "every weekday in january between 9am and 5pm" (by decide) (by decide),
    by decide⟩

/-! ## Claim C10 -/

theorem resolveFrequency_of_nth (base : Option Frequency)
    (weekdays nth : List String) (monthDays : List Int) (months : List Nat)
    (hourRange : Option (List Nat)) (hn : nth ≠ []) :
    resolveFrequency base weekdays nth monthDays months hourRange = some .MONTHLY ∨
    resolveFrequency base weekdays nth monthDays months hourRange = some .YEARLY ∨
    resolveFrequency base weekdays nth monthDays months hourRange = some .HOURLY := by
  simp only [resolveFrequency]
  split_ifs <;> simp_all

theorem applyDuration_frequency (t : String) (m : MatchResult) (f : Frequency) :
    (applyDuration t m f).frequency = m.frequency := by
  unfold applyDuration
  dsimp only
  repeat' split
  all_goals rfl

theorem finishRRule_unsupported_shape (m : MatchResult) (d : Option String)
    (f : Frequency) (hf : m.frequency = some f) (msg : String)
    (h : finishRRule m d = .unsupported msg) :
    ∃ c n, msg = ambiguousMsg c n := by
  unfold finishRRule at h
  by_cases hs : splitCond m = true
  · rw [if_pos hs] at h
    cases hc : m.count with
    | none =>
      rw [hc] at h
      dsimp only at h
      rw [buildAll_ok f _ (by
        intro m' hm'
        obtain ⟨it, _, rfl⟩ := List.mem_map.mp hm'
        exact hf)] at h
      exact absurd h (by simp)
    | some c =>
      rw [hc] at h
      dsimp only at h
      by_cases hlt : c < m.times.length
      · rw [if_pos hlt] at h
        exact ⟨c, m.times.length, (RRuleResult.unsupported.inj h).symm⟩
      · rw [if_neg hlt] at h
        rw [buildAll_ok f _ (by
          intro m' hm'
          obtain ⟨it, _, rfl⟩ := List.mem_map.mp hm'
          exact hf)] at h
        exact absurd h (by simp)
  · rw [if_neg hs] at h
    unfold buildRRule normalizeMatches at h
    rw [hf] at h
    exact absurd h (by simp)

theorem ambiguousMsg_ne_daily (c n : Nat) : ambiguousMsg c n ≠ msgConflictDailyNth := by
  apply ne_of_data_get _ _ 0 'A' 'C'
  · unfold ambiguousMsg
    exact data_get_append_left _ _ 0 'A'
      (data_get_append_left _ _ 0 'A'
        (data_get_append_left _ _ 0 'A'
          (data_get_append_left _ _ 0 'A'
            (data_get_append_left _ _ 0 'A'
              (data_get_append_left _ _ 0 'A' (by decide))))))
  · decide
  · decide

theorem invalidTimeMsg_ne_daily (tok : String) :
    invalidTimeMsg tok ≠ msgConflictDailyNth := by
  apply ne_of_data_get _ _ 0 'I' 'C'
  · unfold invalidTimeMsg
    exact data_get_append_left _ _ 0 'I' (data_get_append_left _ _ 0 'I' (by decide))
  · decide
  · decide

theorem matchPatterns_frequency_eq (text : String) :
    (matchPatterns text).frequency = resolveFrequency (baseFrequency text)
      (matchWeekdays text) (matchNthWeekdays text) (matchMonthDays text)
      (matchMonths text) (matchHourRange text) := rfl

theorem detectConflicts_ne_daily (text : String) :
    detectConflicts (matchPatterns text) ≠ some msgConflictDailyNth := by
  intro h
  unfold detectConflicts at h
  split_ifs at h with h1 h2 h3 h4 h5 h6
  · exact absurd (Option.some.inj h) (by decide)
  · have hres := resolveFrequency_of_nth (baseFrequency text) (matchWeekdays text)
      (matchNthWeekdays text) (matchMonthDays text) (matchMonths text)
      (matchHourRange text) h2.2
    have h21 := h2.1
    rw [matchPatterns_frequency_eq] at h21
    rcases hres with hq | hq | hq <;> rw [hq] at h21 <;> simp at h21
  · exact absurd (Option.some.inj h) (by decide)
  · exact absurd (Option.some.inj h) (by decide)
  · exact absurd (Option.some.inj h) (by decide)
  · rcases hfq : (matchPatterns text).frequency with _ | f
    · rw [hfq] at h
      exact absurd (Option.some.inj h) (by decide)
    · rw [hfq] at h
      cases f <;> exact absurd (Option.some.inj h) (by decide)

/-- C10 (implicit): matching any nth-weekday pattern forces the
frequency to MONTHLY and the only later overrides set YEARLY or HOURLY,
so no MatchState produced by pattern matching pairs DAILY with a
non-empty nthWeekdays list; hence the conflict detector's
DAILY-with-nth-weekday branch is unreachable from the public entry
point and its message is never returned. -/
theorem claim_C10 :
    (∀ text : String,
      (matchPatterns text).nthWeekdays ≠ [] →
      (matchPatterns text).frequency = some .MONTHLY ∨
        (matchPatterns text).frequency = some .YEARLY ∨
        (matchPatterns text).frequency = some .HOURLY) ∧
    (∀ input : String, rruled input ≠ .unsupported msgConflictDailyNth) := by
  constructor
  · intro text hn
    rw [matchPatterns_frequency_eq]
    exact resolveFrequency_of_nth _ _ _ _ _ _ hn
  · intro input h
    unfold rruled at h
    by_cases he : normalizeInput input = ""
    · rw [if_pos he] at h
      exact absurd (RRuleResult.unsupported.inj h) (by decide)
    · rw [if_neg he] at h
      cases hit : findInvalidTime (normalizeInput input) with
      | some tok =>
        rw [hit] at h
        dsimp only at h
        exact invalidTimeMsg_ne_daily tok (RRuleResult.unsupported.inj h)
      | none =>
        rw [hit] at h
        dsimp only at h
        cases hfq : (matchPatterns (normalizeInput input)).frequency with
        | none =>
          rw [hfq] at h
          dsimp only at h
          exact absurd (RRuleResult.unsupported.inj h) (by decide)
        | some f =>
          rw [hfq] at h
          dsimp only at h
          cases hdc : detectConflicts (matchPatterns (normalizeInput input)) with
          | some e =>
            rw [hdc] at h
            dsimp only at h
            rw [RRuleResult.unsupported.inj h] at hdc
            exact detectConflicts_ne_daily _ hdc
          | none =>
            rw [hdc] at h
            dsimp only at h
            obtain ⟨c, n, hmsg⟩ := finishRRule_unsupported_shape _ _ f
              (by rw [applyDuration_frequency]; exact hfq) _ h
            exact ambiguousMsg_ne_daily c n hmsg.symm

/-- Witness for C10 at a concrete nth-weekday input. -/
theorem claim_C10_witness :
    (matchPatterns "first monday of the month").frequency = some .MONTHLY ∨
      (matchPatterns "first monday of the month").frequency = some .YEARLY ∨
      (matchPatterns "first monday of the month").frequency = some .HOURLY :=
  claim_C10.1 "first monday of the month" (by decide)

/-! ## Claim C3 -/

/-- C3 counterexample: `every 2 hours at 9:00 and 9:30` extracts an
HOURLY state with interval 2 whose second parsed time has a non-zero
minute component, yet the conflict detector passes it and the
conversion succeeds — the detector inspects only the first time. -/
theorem claim_C3_cex :
    rruled "every 2 hours at 9:00 and 9:30" =
        .rrules ["FREQ=HOURLY;INTERVAL=2;BYHOUR=9;BYMINUTE=0,30"] none ∧
      (matchPatterns (normalizeInput "every 2 hours at 9:00 and 9:30")).frequency =
        some .HOURLY ∧
      (matchPatterns (normalizeInput "every 2 hours at 9:00 and 9:30")).interval =
        some 2 ∧
      (matchPatterns (normalizeInput "every 2 hours at 9:00 and 9:30")).times =
        [⟨9, 0⟩, ⟨9, 30⟩] ∧
      detectConflicts (matchPatterns (normalizeInput "every 2 hours at 9:00 and 9:30")) =
        none := by
  refine ⟨by decide, by decide, by decide, by decide, by decide⟩

/-- C3 amended: with interval > 1 and frequency HOURLY (and no earlier
conflict rule firing, i.e. no nth-weekdays), the conflict detector
fails with the on-the-hour reason exactly when the *first* parsed time
in the list has a non-zero minute component; later times are not
examined. -/
theorem claim_C3_amended :
    ∀ (m : MatchResult) (i : Nat) (t : ParsedTime) (ts : List ParsedTime),
      m.frequency = some .HOURLY →
      m.nthWeekdays = [] →
      m.interval = some i →
      1 < i →
      m.times = t :: ts →
      t.minute ≠ 0 →
      detectConflicts m = some msgConflictHourlyMinutes := by
  intro m i t ts hf hn hi hgt hts hm
  unfold detectConflicts
  rw [if_neg (by simp [hf, hn]), if_neg (by simp [hf]), if_neg (by simp [hf]),
    if_neg (by simp [hf]), if_pos ⟨by simp [intervalGt1, hi, hgt], hf,
      by simp [firstMinuteNonzero, hts, hm]⟩]

/-- Witness for the amended C3 at a concrete state. -/
theorem claim_C3_witness :
    detectConflicts
        { frequency := some .HOURLY, interval := some 2, weekdays := [],
          monthDays := [], months := [], nthWeekdays := [],
          times := [⟨9, 30⟩], hourRange := none, count := none } =
      some msgConflictHourlyMinutes :=
  claim_C3_amended _ 2 ⟨9, 30⟩ [] rfl rfl rfl (by decide) rfl (by decide)

/-! ## Claim C4 -/

/-- C4 counterexample: the input `daily at 9:99am, ok` contains the
time-shaped token `9:99am` (it has a colon and an am marker and its
minute 99 is out of bounds, so `parseTime` rejects it), yet the
conversion succeeds with `FREQ=DAILY` instead of returning the
invalid-time `unsupported` variant: the pre-scan pattern requires the
token to be followed by whitespace or end-of-input, and the comma
defeats it. -/
theorem claim_C4_cex :
    rruled "daily at 9:99am, ok" = .rrules ["FREQ=DAILY"] none ∧
      hasSubstr "9:99am".data (normalizeInput "daily at 9:99am, ok").data = true ∧
      "9:99am".data.contains ':' = true ∧
      parseTime "9:99am" = none := by
  refine ⟨by decide, by decide, by decide, by decide⟩

/-- C4 amended: whenever the orchestrator's pre-scan (scanning left to
right, accepting a time-shaped token only when it is preceded by
start-of-input, whitespace or `at ` and followed by whitespace or
end-of-input) finds an out-of-bounds token, the conversion returns the
invalid-time `unsupported` variant naming that token — even when the
lenient extractor would have dropped it; tokens the pre-scan's
delimitation rules miss (e.g. followed by punctuation) escape the
check. -/
theorem claim_C4_amended :
    ∀ (input : String) (tok : String),
      findInvalidTime (normalizeInput input) = some tok →
      rruled input = .unsupported (invalidTimeMsg tok) := by
  intro input tok h
  unfold rruled
  by_cases he : normalizeInput input = ""
  · rw [he] at h
    rw [show findInvalidTime "" = none from rfl] at h
    exact Option.noConfusion h
  · rw [if_neg he, h]

/-- Witness for the amended C4: `daily at 25:00` is flagged. -/
theorem claim_C4_witness :
    rruled "daily at 25:00" = .unsupported (invalidTimeMsg "25:00") :=
  claim_C4_amended "daily at 25:00" "25:00" (by decide)

/-! ## Claim C9 -/

/-- C9: `durationToCount` equals
`floor(value × multiplier / interval)` for the fixed per-frequency,
per-unit table, multiplied by the weekday count when the frequency is
WEEKLY with more than one weekday, and it is `none` when the pair has
no multiplier; in particular a 5-week duration at WEEKLY with 2
weekdays yields 10 and a 30-day duration at HOURLY yields 720. -/
theorem claim_C9 :
    (∀ (v i wc : Nat) (f : Frequency) (u : String) (q : ℚ),
      multTable f u = some q →
      durationToCount v u f i wc =
        some (⌊(v : ℚ) * q / (i : ℚ)⌋ *
          (if f = .WEEKLY ∧ 1 < wc then (wc : Int) else 1))) ∧
    (∀ (v i wc : Nat) (f : Frequency) (u : String),
      multTable f u = none → durationToCount v u f i wc = none) ∧
    multTable .DAILY "week" = some 7 ∧
    multTable .WEEKLY "month" = some 4 ∧
    multTable .HOURLY "day" = some 24 ∧
    multTable .MINUTELY "day" = some 1440 ∧
    multTable .YEARLY "day" = some (1 / 365) ∧
    durationToCount 5 "week" .WEEKLY 1 2 = some 10 ∧
    durationToCount 30 "day" .HOURLY 1 1 = some 720 := by
  refine ⟨?_, ?_, rfl, rfl, rfl, rfl, rfl,
    by norm_num [durationToCount, multTable],
    by norm_num [durationToCount, multTable]⟩
  · intro v i wc f u q hq
    unfold durationToCount
    rw [hq]
    dsimp only
    by_cases hw : f = .WEEKLY ∧ 1 < wc
    · rw [if_pos hw, if_pos hw]
    · rw [if_neg hw, if_neg hw, mul_one]
  · intro v i wc f u hq
    unfold durationToCount
    rw [hq]

/-- Witness for C9: the first conjunct applied at the concrete 5-week
WEEKLY case with two weekdays, together with the no-multiplier case at
a unit outside the table. -/
theorem claim_C9_witness :
    durationToCount 5 "week" .WEEKLY 1 2 =
        some (⌊(5 : ℚ) * 1 / (1 : ℚ)⌋ *
          (if Frequency.WEEKLY = .WEEKLY ∧ 1 < 2 then (2 : Int) else 1)) ∧
      durationToCount 9 "fortnight" .WEEKLY 1 1 = none :=
  ⟨claim_C9.1 5 1 2 .WEEKLY "week" 1 rfl,
    claim_C9.2.1 9 1 1 .WEEKLY "fortnight" rfl⟩

/-! ## Claim C1 -/

theorem enum_map_snd_eq {α β : Type} (l : List α) (g : α → β) :
    l.enum.map (fun it => g it.2) = l.map g := by
  rw [show (fun it : Nat × α => g it.2) = g ∘ Prod.snd from rfl, ← List.map_map,
    List.enum_map_snd]

/-- C1: with more than one extracted time, no hourRange, more than one
distinct hour and more than one distinct minute (and no COUNT), the
orchestrator emits one RRULE per time token, each built from a copy of
the state restricted to that single time (so its BYHOUR and BYMINUTE
hold only that token's hour and minute); the canonical input yields
exactly the two expected rules; and when the distinct-hour and
distinct-minute sets do not both have more than one member, all times
collapse into one RRULE with the combined lists (BYMINUTE sorted
ascending). -/
theorem claim_C1 :
    (∀ (m : MatchResult) (d : Option String) (f : Frequency),
      m.frequency = some f →
      m.count = none →
      1 < m.times.length →
      m.hourRange = none →
      1 < ((m.times.map (·.hour24)).eraseDups).length →
      1 < ((m.times.map (·.minute)).eraseDups).length →
      finishRRule m d =
        .rrules (m.times.map fun t =>
          String.intercalate ";"
            (buildParts { m with times := [t], count := none } f)) d) ∧
    (∀ (m : MatchResult) (f : Frequency) (t : ParsedTime),
      m.hourRange = none →
      m.times = [t] →
      ("BYHOUR=" ++ toString t.hour24) ∈ buildParts m f ∧
        ("BYMINUTE=" ++ toString t.minute) ∈ buildParts m f) ∧
    rruled "at 9:15am and 5:45pm every day" =
      .rrules ["FREQ=DAILY;BYHOUR=9;BYMINUTE=15",
        "FREQ=DAILY;BYHOUR=17;BYMINUTE=45"] none ∧
    (∀ (m : MatchResult) (d : Option String) (f : Frequency),
      m.frequency = some f →
      ¬(1 < ((m.times.map (·.hour24)).eraseDups).length ∧
        1 < ((m.times.map (·.minute)).eraseDups).length) →
      finishRRule m d =
        .rrules [String.intercalate ";" (buildParts m f)] d) ∧
    (∀ m : MatchResult, (timesMinutes m).Pairwise (fun a b => a ≤ b)) := by
  refine ⟨?_, ?_, by decide, ?_, ?_⟩
  · intro m d f hf hc hlen hhr hH hM
    have hsplit : splitCond m = true := by
      simp only [splitCond, Bool.and_eq_true, decide_eq_true_eq,
        Option.isNone_iff_eq_none]
      exact ⟨⟨⟨hlen, hhr⟩, hM⟩, hH⟩
    unfold finishRRule
    rw [if_pos hsplit, hc]
    dsimp only
    rw [buildAll_ok f _ (by
      intro m' hm'
      obtain ⟨it, _, rfl⟩ := List.mem_map.mp hm'
      exact hf)]
    rw [List.map_map]
    exact congrArg (fun l => RRuleResult.rrules l d)
      (enum_map_snd_eq m.times fun t =>
        String.intercalate ";" (buildParts { m with times := [t], count := none } f))
  · intro m f t hhr hts
    have hH : timesHours m = [t.hour24] := by
      unfold timesHours
      rw [hts]
      rfl
    have hM : timesMinutes m = [t.minute] := by
      unfold timesMinutes
      rw [hts]
      rfl
    have hj : joinNats [t.hour24] = toString t.hour24 := rfl
    have hj2 : joinNats [t.minute] = toString t.minute := rfl
    constructor
    · simp only [buildParts, hhr, hH, hM, hts, hj, hj2]
      refine List.mem_append.mpr (Or.inl (List.mem_append.mpr (Or.inr ?_)))
      simp
    · simp only [buildParts, hhr, hH, hM, hts, hj, hj2]
      refine List.mem_append.mpr (Or.inr ?_)
      simp
  · intro m d f hf hno
    have hsplit : splitCond m = false := by
      rw [Bool.eq_false_iff]
      intro hs
      simp only [splitCond, Bool.and_eq_true, decide_eq_true_eq,
        Option.isNone_iff_eq_none] at hs
      exact hno ⟨hs.2, hs.1.2⟩
    unfold finishRRule
    rw [if_neg (by simp [hsplit])]
    unfold buildRRule normalizeMatches
    rw [hf]
  · intro m
    exact sortLe_pairwise (fun n : Nat => n) _

/-- Witness for C1: the split and collapse conclusions at concrete
states. -/
theorem claim_C1_witness :
    finishRRule
        { frequency := some .DAILY, interval := none, weekdays := [],
          monthDays := [], months := [], nthWeekdays := [],
          times := [⟨9, 15⟩, ⟨17, 45⟩], hourRange := none, count := none } none =
      .rrules ["FREQ=DAILY;BYHOUR=9;BYMINUTE=15",
        "FREQ=DAILY;BYHOUR=17;BYMINUTE=45"] none ∧
    finishRRule
        { frequency := some .DAILY, interval := none, weekdays := [],
          monthDays := [], months := [], nthWeekdays := [],
          times := [⟨9, 15⟩, ⟨9, 45⟩], hourRange := none, count := none } none =
      .rrules ["FREQ=DAILY;BYHOUR=9;BYMINUTE=15,45"] none := by
  constructor
  · have h := claim_C1.1
      { frequency := some .DAILY, interval := none, weekdays := [],
        monthDays := [], months := [], nthWeekdays := [],
        times := [⟨9, 15⟩, ⟨17, 45⟩], hourRange := none, count := none } none .DAILY
      rfl rfl (by decide) rfl (by decide) (by decide)
    rw [h]
    decide
  · have h := claim_C1.2.2.2.1
      { frequency := some .DAILY, interval := none, weekdays := [],
        monthDays := [], months := [], nthWeekdays := [],
        times := [⟨9, 15⟩, ⟨9, 45⟩], hourRange := none, count := none } none .DAILY
      rfl (by decide)
    rw [h]
    decide

/-! ## Claim C2 -/

/-- C2: in the cartesian-split case with an explicit COUNT, a COUNT
smaller than the number of times fails with the `unsupported` message
that reports the number of times and suggests the minimum COUNT;
otherwise COUNT is distributed by floor division with the remainder
added one each to the first `remainder` rules, the per-rule values
summing exactly to COUNT (COUNT=10 over 3 times gives 4,3,3). -/
theorem claim_C2 :
    (∀ (m : MatchResult) (d : Option String) (c : Nat) (f : Frequency),
      m.frequency = some f →
      m.count = some c →
      1 < m.times.length →
      m.hourRange = none →
      1 < ((m.times.map (·.hour24)).eraseDups).length →
      1 < ((m.times.map (·.minute)).eraseDups).length →
      (c < m.times.length →
        finishRRule m d = .unsupported (ambiguousMsg c m.times.length)) ∧
      (m.times.length ≤ c →
        finishRRule m d =
          .rrules (m.times.enum.map fun it =>
            String.intercalate ";"
              (buildParts
                { m with
                  times := [it.2]
                  count := some (ruleCountShare c m.times.length it.1) } f)) d)) ∧
    (∀ c n : Nat, 0 < n → ((List.range n).map (ruleCountShare c n)).sum = c) ∧
    (List.range 3).map (ruleCountShare 10 3) = [4, 3, 3] := by
  refine ⟨?_, fun c n hn => ruleCountShare_sum c n hn, by decide⟩
  intro m d c f hf hc hlen hhr hH hM
  have hsplit : splitCond m = true := by
    simp only [splitCond, Bool.and_eq_true, decide_eq_true_eq,
      Option.isNone_iff_eq_none]
    exact ⟨⟨⟨hlen, hhr⟩, hM⟩, hH⟩
  constructor
  · intro hlt
    unfold finishRRule
    rw [if_pos hsplit, hc]
    dsimp only
    rw [if_pos hlt]
  · intro hge
    unfold finishRRule
    rw [if_pos hsplit, hc]
    dsimp only
    rw [if_neg (by omega)]
    rw [buildAll_ok f _ (by
      intro m' hm'
      obtain ⟨it, _, rfl⟩ := List.mem_map.mp hm'
      exact hf)]
    rw [List.map_map]
    rfl

/-- Witness for C2: the distribution and the ambiguity rejection at
concrete states. -/
theorem claim_C2_witness :
    finishRRule
        { frequency := some .DAILY, interval := none, weekdays := [],
          monthDays := [], months := [], nthWeekdays := [],
          times := [⟨9, 15⟩, ⟨17, 45⟩], hourRange := none, count := some 10 } none =
      .rrules ["FREQ=DAILY;COUNT=5;BYHOUR=9;BYMINUTE=15",
        "FREQ=DAILY;COUNT=5;BYHOUR=17;BYMINUTE=45"] none ∧
    finishRRule
        { frequency := some .DAILY, interval := none, weekdays := [],
          monthDays := [], months := [], nthWeekdays := [],
          times := [⟨9, 15⟩, ⟨17, 45⟩], hourRange := none, count := some 1 } none =
      .unsupported (ambiguousMsg 1 2) := by
  constructor
  · have h := (claim_C2.1
      { frequency := some .DAILY, interval := none, weekdays := [],
        monthDays := [], months := [], nthWeekdays := [],
        times := [⟨9, 15⟩, ⟨17, 45⟩], hourRange := none, count := some 10 } none 10 .DAILY
      rfl rfl (by decide) rfl (by decide) (by decide)).2 (by decide)
    rw [h]
    decide
  · exact (claim_C2.1
      { frequency := some .DAILY, interval := none, weekdays := [],
        monthDays := [], months := [], nthWeekdays := [],
        times := [⟨9, 15⟩, ⟨17, 45⟩], hourRange := none, count := some 1 } none 1 .DAILY
      rfl rfl (by decide) rfl (by decide) (by decide)).1 (by decide)

/-! ## Claim C6 -/

/-- C6: for any input, the nthWeekdays list of the MatchState is sorted
ascending by ordinal with all `-1` ("last") entries trailing (the key
maps `-1` above every ordinal 1–5), regardless of textual order; and an
input implying `{-1FR, 1MO, 3MO}` serializes BYDAY as `1MO,3MO,-1FR`. -/
theorem claim_C6 :
    (∀ text : String,
      ((matchPatterns text).nthWeekdays).Pairwise
        (fun a b => nthKeyVal a ≤ nthKeyVal b)) ∧
    nthKeyVal "1MO" = 1 ∧ nthKeyVal "3MO" = 3 ∧ nthKeyVal "-1FR" = 6 ∧
    rruled "last friday. first and third monday of the month" =
      .rrules ["FREQ=MONTHLY;BYDAY=1MO,3MO,-1FR"] none := by
  refine ⟨?_, by decide, by decide, by decide, by decide⟩
  intro text
  show (matchNthWeekdays text).Pairwise _
  unfold matchNthWeekdays
  exact sortLe_pairwise nthKeyVal _

/-! ## Claim C7 -/

theorem tagged_ne (a b x y : String) (i : Nat) (c c' : Char)
    (ha : a.data.get? i = some c) (hb : b.data.get? i = some c') (hc : c ≠ c') :
    a ++ x ≠ b ++ y :=
  ne_of_data_get _ _ i c c' (data_get_append_left a x i c ha)
    (data_get_append_left b y i c' hb) hc

/-- Every element of the parts list is a tagged `KEY=value` string, and
a BYMINUTE part can occur only when no hour range is present and times
are non-empty. -/
theorem buildParts_shapes (m : MatchResult) (f : Frequency) :
    ∀ p ∈ buildParts m f,
      (∃ x, p = "FREQ=" ++ x) ∨ (∃ x, p = "INTERVAL=" ++ x) ∨
      (∃ x, p = "COUNT=" ++ x) ∨ (∃ x, p = "BYMONTH=" ++ x) ∨
      (∃ x, p = "BYDAY=" ++ x) ∨ (∃ x, p = "BYMONTHDAY=" ++ x) ∨
      (∃ x, p = "BYHOUR=" ++ x) ∨
      ((∃ x, p = "BYMINUTE=" ++ x) ∧ m.hourRange = none ∧ m.times ≠ []) := by
  intro p hp
  unfold buildParts at hp
  dsimp only at hp
  rcases List.mem_append.mp hp with hp | hmin
  rcases List.mem_append.mp hp with hp | hhour
  rcases List.mem_append.mp hp with hp | hmd
  rcases List.mem_append.mp hp with hp | hday
  rcases List.mem_append.mp hp with hp | hmon
  rcases List.mem_append.mp hp with hp | hcnt
  rcases List.mem_append.mp hp with hfr | hint
  · simp only [List.mem_singleton] at hfr
    exact Or.inl ⟨_, hfr⟩
  · split at hint
    · split at hint
      · simp only [List.mem_singleton] at hint
        exact Or.inr (Or.inl ⟨_, hint⟩)
      · simp at hint
    · simp at hint
  · split at hcnt
    · split at hcnt
      · simp only [List.mem_singleton] at hcnt
        exact Or.inr (Or.inr (Or.inl ⟨_, hcnt⟩))
      · simp at hcnt
    · simp at hcnt
  · split at hmon
    · simp only [List.mem_singleton] at hmon
      exact Or.inr (Or.inr (Or.inr (Or.inl ⟨_, hmon⟩)))
    · simp at hmon
  · split at hday
    · simp only [List.mem_singleton] at hday
      exact Or.inr (Or.inr (Or.inr (Or.inr (Or.inl ⟨_, hday⟩))))
    · split at hday
      · simp only [List.mem_singleton] at hday
        exact Or.inr (Or.inr (Or.inr (Or.inr (Or.inl ⟨_, hday⟩))))
      · simp at hday
  · split at hmd
    · simp only [List.mem_singleton] at hmd
      exact Or.inr (Or.inr (Or.inr (Or.inr (Or.inr (Or.inl ⟨_, hmd⟩)))))
    · simp at hmd
  · split at hhour
    · simp only [List.mem_singleton] at hhour
      exact Or.inr (Or.inr (Or.inr (Or.inr (Or.inr (Or.inr (Or.inl ⟨_, hhour⟩))))))
    · split at hhour
      · split at hhour
        · simp only [List.mem_singleton] at hhour
          exact Or.inr (Or.inr (Or.inr (Or.inr (Or.inr (Or.inr (Or.inl ⟨_, hhour⟩))))))
        · simp at hhour
      · simp at hhour
  · split at hmin
    · split at hmin
      · simp only [List.mem_singleton] at hmin
        rename_i hcond _
        exact Or.inr (Or.inr (Or.inr (Or.inr (Or.inr (Or.inr (Or.inr
          ⟨⟨_, hmin⟩, hcond.2, hcond.1⟩))))))
      · simp at hmin
    · simp at hmin

/-- C7: the hour-range matcher converts both endpoints to 24-hour
integers and produces a concrete enumerated hour list — `start..23`
followed by `0..end` when start > end (overnight wrap, e.g. 23,0,1,2
for 11pm–2am), `start..end` inclusive otherwise; and when hourRange is
present the built RRULE's BYHOUR is exactly that list while no
BYMINUTE part is emitted (hourRange wins over times-derived fields). -/
theorem claim_C7 :
    (∀ s e h : Nat, s ≤ 23 → e ≤ 23 →
      (h ∈ expandHourRange s e ↔
        if s ≤ e then s ≤ h ∧ h ≤ e else (s ≤ h ∧ h ≤ 23) ∨ h ≤ e)) ∧
    expandHourRange 23 2 = [23, 0, 1, 2] ∧
    (∀ (t : String) (r : List Nat), matchHourRange t = some r →
      ∃ sh sp eh ep, matchHourRangeAux t.data = some (sh, sp, eh, ep) ∧
        r = expandHourRange (to24 sh sp) (to24 eh ep)) ∧
    to24 11 (some .pm) = 23 ∧ to24 2 (some .am) = 2 ∧ to24 12 (some .am) = 0 ∧
    to24 12 (some .pm) = 12 ∧ to24 9 none = 9 ∧
    matchHourRange "between 11pm and 2am" = some [23, 0, 1, 2] ∧
    (∀ (m : MatchResult) (f : Frequency) (hrs : List Nat),
      m.hourRange = some hrs →
      ("BYHOUR=" ++ joinNats hrs) ∈ buildParts m f ∧
        ∀ p ∈ buildParts m f, ∀ x : String, p ≠ "BYMINUTE=" ++ x) ∧
    rruled "hourly between 11pm and 2am" =
      .rrules ["FREQ=HOURLY;BYHOUR=23,0,1,2"] none := by
  refine ⟨?_, by decide, ?_, by decide, by decide, by decide, by decide, by decide,
    by decide, ?_, by decide⟩
  · intro s e h hs he
    unfold expandHourRange
    by_cases hle : s ≤ e
    · rw [if_neg (by omega), if_pos hle]
      rw [List.mem_range'_1]
      omega
    · rw [if_pos (by omega), if_neg hle]
      rw [List.mem_append, List.mem_range'_1, List.mem_range'_1]
      omega
  · intro t r h
    unfold matchHourRange at h
    cases hx : matchHourRangeAux t.data with
    | none => rw [hx] at h; exact Option.noConfusion h
    | some q =>
      obtain ⟨sh, sp, eh, ep⟩ := q
      rw [hx] at h
      exact ⟨sh, sp, eh, ep, rfl, (Option.some.inj h).symm⟩
  · intro m f hrs hcr
    constructor
    · simp only [buildParts, hcr]
      refine List.mem_append.mpr (Or.inl (List.mem_append.mpr (Or.inr ?_)))
      simp
    · intro p hp x
      rcases buildParts_shapes m f p hp with ⟨y, rfl⟩ | ⟨y, rfl⟩ | ⟨y, rfl⟩ |
        ⟨y, rfl⟩ | ⟨y, rfl⟩ | ⟨y, rfl⟩ | ⟨y, rfl⟩ | ⟨⟨y, rfl⟩, hnone, _⟩
      · exact tagged_ne _ _ _ _ 0 'F' 'B' (by decide) (by decide) (by decide)
      · exact tagged_ne _ _ _ _ 0 'I' 'B' (by decide) (by decide) (by decide)
      · exact tagged_ne _ _ _ _ 0 'C' 'B' (by decide) (by decide) (by decide)
      · exact tagged_ne _ _ _ _ 3 'O' 'I' (by decide) (by decide) (by decide)
      · exact tagged_ne _ _ _ _ 2 'D' 'M' (by decide) (by decide) (by decide)
      · exact tagged_ne _ _ _ _ 3 'O' 'I' (by decide) (by decide) (by decide)
      · exact tagged_ne _ _ _ _ 2 'H' 'M' (by decide) (by decide) (by decide)
      · rw [hcr] at hnone
        exact Option.noConfusion hnone

/-- Witness for C7: the structural conjuncts applied at concrete data. -/
theorem claim_C7_witness :
    (21 ∈ expandHourRange 21 5 ↔
      if 21 ≤ 5 then 21 ≤ 21 ∧ 21 ≤ 5 else (21 ≤ 21 ∧ 21 ≤ 23) ∨ 21 ≤ 5) ∧
    ("BYHOUR=" ++ joinNats [23, 0, 1, 2]) ∈ buildParts
      { frequency := some .HOURLY, interval := none, weekdays := [],
        monthDays := [], months := [], nthWeekdays := [],
        times := [⟨23, 0⟩, ⟨2, 0⟩], hourRange := some [23, 0, 1, 2],
        count := none } .HOURLY :=
  ⟨claim_C7.1 21 5 21 (by decide) (by decide),
    (claim_C7.2.2.2.2.2.2.2.2.2.1
      { frequency := some .HOURLY, interval := none, weekdays := [],
        monthDays := [], months := [], nthWeekdays := [],
        times := [⟨23, 0⟩, ⟨2, 0⟩], hourRange := some [23, 0, 1, 2],
        count := none } .HOURLY [23, 0, 1, 2] rfl).1⟩

/-! ## Claim C8 -/

theorem ballRange (n : Nat) (p : Nat → Prop) [DecidablePred p]
    (h : ((List.range n).all fun k => decide (p k)) = true) :
    ∀ k, k < n → p k := by
  intro k hk
  exact of_decide_eq_true (List.all_eq_true.mp h k (List.mem_range.mpr hk))

set_option maxHeartbeats 8000000 in
/-- C8: `parseTime` accepts exactly the 24-hour form `{0..23}:{0..59}`
and the 12-hour form `{1..12}[:{0..59}]am|pm` (plus `noon` → (12,0) and
`midnight` → (0,0)); each component is characterised over its entire
two-digit domain (the `\d{1,2}` capture can produce nothing else), every
other numeric combination — 13pm, 9:60am, 24:00, 25:75, a 12-hour-style
hour of 0 — is rejected, and `-5:00` is matched in full by the
extraction pattern yet rejected by range validation. -/
theorem claim_C8 :
    (∀ h, h < 100 → parseTime (toString h ++ ":30") =
      if h ≤ 23 then some ⟨h, 30⟩ else none) ∧
    (∀ m, m < 100 → parseTime ("9:" ++ fmt2 m) =
      if m ≤ 59 then some ⟨9, m⟩ else none) ∧
    (∀ h, h < 100 → parseTime (toString h ++ ":30am") =
      if 1 ≤ h ∧ h ≤ 12 then some ⟨if h = 12 then 0 else h, 30⟩ else none) ∧
    (∀ h, h < 100 → parseTime (toString h ++ ":30pm") =
      if 1 ≤ h ∧ h ≤ 12 then some ⟨if h = 12 then 12 else h + 12, 30⟩ else none) ∧
    (∀ m, m < 100 → parseTime ("9:" ++ fmt2 m ++ "am") =
      if m ≤ 59 then some ⟨9, m⟩ else none) ∧
    (∀ h, h < 100 → parseTime (toString h ++ "am") =
      if 1 ≤ h ∧ h ≤ 12 then some ⟨if h = 12 then 0 else h, 0⟩ else none) ∧
    (∀ h, h < 100 → parseTime (toString h ++ "pm") =
      if 1 ≤ h ∧ h ≤ 12 then some ⟨if h = 12 then 12 else h + 12, 0⟩ else none) ∧
    parseTime "noon" = some ⟨12, 0⟩ ∧ parseTime "midnight" = some ⟨0, 0⟩ ∧
    parseTime "13pm" = none ∧ parseTime "9:60am" = none ∧
    parseTime "24:00" = none ∧ parseTime "25:75" = none ∧
    parseTime "0am" = none ∧ parseTime "0:30pm" = none ∧
    timeTokenAt "-5:00".data = some ("-5:00".data, []) ∧
    parseTime "-5:00" = none := by
  refine ⟨ballRange 100 _ (by rfl), ballRange 100 _ (by rfl),
    ballRange 100 _ (by rfl), ballRange 100 _ (by rfl),
    ballRange 100 _ (by rfl), ballRange 100 _ (by rfl),
    ballRange 100 _ (by rfl), by decide, by decide, by decide, by decide,
    by decide, by decide, by decide, by decide, by decide, by decide⟩

/-- Witness for C8: the 24-hour characterisation applied at the
boundary hours 23 and 24. -/
theorem claim_C8_witness :
    parseTime "23:30" = some ⟨23, 30⟩ ∧ parseTime "24:30" = none := by
  have h23 := claim_C8.1 23 (by decide)
  have h24 := claim_C8.1 24 (by decide)
  rw [show (toString 23 ++ ":30" : String) = "23:30" from rfl] at h23
  rw [show (toString 24 ++ ":30" : String) = "24:30" from rfl] at h24
  rw [if_pos (by decide)] at h23
  rw [if_neg (by decide)] at h24
  exact ⟨h23, h24⟩
